import Mathlib

/-!
Shallow embedding of the N26 statement-parser core (`pdf_parser` source file of
the n26-scraper repository): `parseTransactionsFromText`, `parseBalanceFromText`
and `isRealTransaction`, together with the hand-rolled regular-expression
matchers the Go code delegates to Go's `regexp` (RE2) package for.

Strings are modelled as `List Char` (a `Line`); Go's byte-oriented `len` is
modelled by `golen` (sum of UTF-8 sizes), `strings.Contains` by `containsStr`,
`strings.TrimSpace` by `trim` (Unicode White_Space set, as `unicode.IsSpace`),
and each regular expression by a dedicated deterministic matcher following
RE2's leftmost-match semantics (the patterns involved - fixed-count digit
groups, optional sign/currency, greedy runs followed by a character that can
never belong to the run - admit no backtracking ambiguity).
-/

deriving instance DecidableEq for Except

namespace N26

abbrev Line := List Char

/-- Go `unicode.IsSpace`: the Unicode White_Space code points.  Go compares
runes, i.e. code points, which `Char.toNat` denotes. -/
def isGoSpace (c : Char) : Bool :=
  c.toNat = 0x20 || c.toNat = 0x9 || c.toNat = 0xA || c.toNat = 0xB ||
  c.toNat = 0xC || c.toNat = 0xD || c.toNat = 0x85 || c.toNat = 0xA0 ||
  c.toNat = 0x1680 || (0x2000 ≤ c.toNat && c.toNat ≤ 0x200A) ||
  c.toNat = 0x2028 || c.toNat = 0x2029 || c.toNat = 0x202F ||
  c.toNat = 0x205F || c.toNat = 0x3000

/-- RE2 character class `\s`, i.e. `[\t\n\f\r ]`. -/
def isRegexSpace (c : Char) : Bool :=
  c.toNat = 0x9 || c.toNat = 0xA || c.toNat = 0xC || c.toNat = 0xD ||
  c.toNat = 0x20

/-- RE2 character class `\d`, i.e. `[0-9]`. -/
def isDigitGo (c : Char) : Bool :=
  0x30 ≤ c.toNat && c.toNat ≤ 0x39

/-- `strings.TrimSpace`: drop leading and trailing white space. -/
def trim (l : Line) : Line :=
  ((l.dropWhile isGoSpace).reverse.dropWhile isGoSpace).reverse

/-- `strings.Contains hay needle` (substring test). -/
def containsStr (hay needle : Line) : Bool :=
  if needle.isPrefixOf hay then true
  else
    match hay with
    | [] => false
    | _ :: t => containsStr t needle

/-- Go `len` on the string a `Line` denotes: its UTF-8 byte count. -/
def golen (l : Line) : Nat := l.foldl (fun n c => n + c.utf8Size) 0

/-- `strings.Split text "\n"`. -/
def splitLines : List Char → List Line
  | [] => [[]]
  | c :: cs =>
    if c = '\n' then [] :: splitLines cs
    else
      match splitLines cs with
      | [] => [[c]]
      | l :: ls => (c :: l) :: ls

/-- `strings.TrimSuffix s "€"`. -/
def dropEuro (l : Line) : Line :=
  if l.getLast? = some '€' then l.dropLast else l

/-- Match of `\d{2}\.\d{2}\.\d{4}` anchored at the head of the input:
the matched text and the remainder. -/
def matchDateAt (l : Line) : Option (Line × Line) :=
  match l with
  | a :: b :: x :: c :: d :: y :: e :: f :: g :: h :: rest =>
    if isDigitGo a && isDigitGo b && x = '.' && isDigitGo c && isDigitGo d && y = '.' &&
        isDigitGo e && isDigitGo f && isDigitGo g && isDigitGo h then
      some ([a, b, x, c, d, y, e, f, g, h], rest)
    else none
  | _ => none

/-- Leftmost match of the date pattern `(\d{2}\.\d{2}\.\d{4})`:
`datePattern.FindAllString(l, -1)[0]` (the Go code only ever uses the first
match), and `.isSome` is `datePattern.MatchString l`. -/
def findFirstDate : Line → Option Line
  | [] => none
  | c :: cs =>
    match matchDateAt (c :: cs) with
    | some (d, _) => some d
    | none => findFirstDate cs

/-- Match of `[+-]?\d+[.,]\d{2}\s*€?` anchored at the head of the input:
the matched text and the remainder.  The match is the unique one RE2 finds:
`\d+` greedily takes the maximal digit run (a shorter run would leave a digit
where `[.,]` must match), `\d{2}` is a fixed count, `\s*` greedily takes the
maximal run of `\s`, and `€?` takes a euro sign when present. -/
def matchAmountAt (l : Line) : Option (Line × Line) :=
  let signSplit : Line × Line :=
    match l with
    | c :: cs => if c = '+' || c = '-' then ([c], cs) else ([], l)
    | [] => ([], l)
  let sign := signSplit.1
  let l1 := signSplit.2
  let intd := l1.takeWhile isDigitGo
  if intd.isEmpty then none
  else
    match l1.dropWhile isDigitGo with
    | sep :: d1 :: d2 :: l3 =>
      if (sep = '.' || sep = ',') && isDigitGo d1 && isDigitGo d2 then
        let sp := l3.takeWhile isRegexSpace
        match l3.dropWhile isRegexSpace with
        | '€' :: l5 => some (sign ++ intd ++ sep :: d1 :: d2 :: (sp ++ ['€']), l5)
        | l4 => some (sign ++ intd ++ sep :: d1 :: d2 :: sp, l4)
      else none
    | _ => none

/-- `amountPattern.MatchString l`: some position of `l` starts a match of
`([+-]?\d+[.,]\d{2})\s*€?`. -/
def hasAmountMatch : Line → Bool
  | [] => false
  | c :: cs => (matchAmountAt (c :: cs)).isSome || hasAmountMatch cs

/-- Worker for `findAllAmounts`.  The fuel only bounds the recursion: every
step consumes at least one character, so fuel `l.length` never runs out. -/
def findAllAmountsAux : Nat → Line → List Line
  | 0, _ => []
  | _ + 1, [] => []
  | fuel + 1, c :: cs =>
    match matchAmountAt (c :: cs) with
    | some (m, rest) => m :: findAllAmountsAux fuel rest
    | none => findAllAmountsAux fuel cs

/-- `balancePattern.FindAllString(l, -1)`: all successive leftmost,
non-overlapping matches of `([+-]?\d+[.,]\d{2})\s*€?`. -/
def findAllAmounts (l : Line) : List Line := findAllAmountsAux l.length l

/-- The part of `^[+-]?\d+,\d{2}\s*€?\s*$` after the optional sign:
`\d+,\d{2}\s*€?\s*$` (`\d+` the maximal digit run, then `,`, two digits, a
white-space run, an optional euro sign, a white-space run, end of line),
returning `\d+,\d{2}` — the matched text with the trailing white space and
currency sign dropped. -/
def parseFullAmountTail (l1 : Line) : Option Line :=
  if (l1.takeWhile isDigitGo).isEmpty then none
  else
    match l1.dropWhile isDigitGo with
    | sep :: d1 :: d2 :: l3 =>
      if sep = ',' && isDigitGo d1 && isDigitGo d2 then
        if ((if (l3.dropWhile isRegexSpace).head? = some '€'
              then (l3.dropWhile isRegexSpace).tail
              else l3.dropWhile isRegexSpace).dropWhile isRegexSpace).isEmpty then
          some (l1.takeWhile isDigitGo ++ sep :: d1 :: d2 :: [])
        else none
      else none
    | _ => none

/-- Full-line transaction-amount test `^[+-]?\d+,\d{2}\s*€?\s*$`, returning
the core `[+-]?\d+,\d{2}` of the match (what the amount line denotes once the
trailing white space and currency sign are gone).  A leading `+`/`-` must be
followed by the digits (an unconsumed sign character can never match `\d+`),
so `[+-]?` consumes a leading sign character exactly when one is present. -/
def parseFullAmount (l : Line) : Option Line :=
  match l with
  | c :: cs =>
    if c = '+' || c = '-' then (parseFullAmountTail cs).map (fun core => c :: core)
    else parseFullAmountTail l
  | [] => parseFullAmountTail l

/-- `regexp.MatchString("^[+-]?\d+,\d{2}\s*€?\s*$", l)`. -/
def fullAmountLine (l : Line) : Bool := (parseFullAmount l).isSome

/-- Page-number test `^\d+\s*/\s*\d+$`. -/
def pageNumberMatch (l : Line) : Bool :=
  let d1 := l.takeWhile isDigitGo
  match (l.dropWhile isDigitGo).dropWhile isRegexSpace with
  | '/' :: l3 =>
    let l4 := l3.dropWhile isRegexSpace
    let d2 := l4.takeWhile isDigitGo
    !d1.isEmpty && !d2.isEmpty && (l4.dropWhile isDigitGo).isEmpty
  | _ => false

/-- The `Transaction` struct. -/
structure Transaction where
  BookingDate : String
  ValueDate : String
  PartnerName : String
  Amount : String
deriving Repr, DecidableEq

/-- The `AccountBalance` struct. -/
structure AccountBalance where
  Balance : String
deriving Repr, DecidableEq

def fechaStr : Line := "Fecha de valor".data

/-- Accumulator of the backward date scan: the `tx.ValueDate` and
`tx.BookingDate` fields while they are being filled in (`[]` = unset). -/
structure DateAcc where
  vd : Line
  bd : Line
deriving Repr, DecidableEq

/-- One iteration of the date loop (`for j := max(0, i-10); j < i; j++`). -/
def dateStep (s : DateAcc) (raw : Line) : DateAcc :=
  let cl := trim raw
  let s1 :=
    if containsStr cl fechaStr then
      match findFirstDate cl with
      | some d => { s with vd := d }
      | none => s
    else s
  if s1.bd.isEmpty && !containsStr cl fechaStr then
    match findFirstDate cl with
    | some d =>
      if golen cl < 20 then
        { bd := d, vd := if s1.vd.isEmpty then d else s1.vd }
      else s1
    | none => s1
  else s1

def foldDates (s : DateAcc) (w : List Line) : DateAcc := w.foldl dateStep s

def partnerSkipWords : List Line :=
  ["Fecha", "Descripción", "Cantidad", "Mastercard", "IBAN", "BIC", "Emitido",
   "Transferencias", "Enviada", "Actividad", "salientes"].map String.data

/-- The skip test of the partner-name loop. -/
def partnerSkip (cl : Line) : Bool :=
  golen cl < 3 || (findFirstDate cl).isSome || hasAmountMatch cl ||
  partnerSkipWords.any (fun w => containsStr cl w)

/-- One iteration of the partner-name loop
(`for j := max(0, i-8); j < i-1; j++`). -/
def partnerStep (p : Line) (raw : Line) : Line :=
  let cl := trim raw
  if partnerSkip cl then p
  else if golen cl > 2 then
    if p.isEmpty || golen cl > golen p then cl else p
  else p

def foldPartner (p : Line) (w : List Line) : Line := w.foldl partnerStep p

/-- The sublist of `lines` at indices `[lo, hi)` (with `lo ≤ hi`); truncated
`Nat` subtraction makes `lo = i - k` the Go `max(0, i-k)`. -/
def slice (lines : List Line) (lo hi : Nat) : List Line :=
  (lines.drop lo).take (hi - lo)

/-- The date window of candidate index `i`: indices `[max(0, i-10), i)`. -/
def dateWindow (lines : List Line) (i : Nat) : List Line :=
  slice lines (i - 10) i

/-- The partner window of candidate index `i`: indices `[max(0, i-8), i-1)` -
the line directly before the amount line is excluded. -/
def partnerWindow (lines : List Line) (i : Nat) : List Line :=
  slice lines (i - 8) (i - 1)

def skipPatterns : List Line :=
  ["Saldo previo", "Saldo", "Balance", "Emitido", "Descripción",
   "Fecha de reserva", "Cantidad", "Actividad de la cuenta"].map String.data

/-- `isRealTransaction`.  `Char.toLower` is Go's `strings.ToLower` restricted
to ASCII; every character the skip patterns are compared through is ASCII or
already lower-case (`ó`). -/
def isRealTransaction (tx : Transaction) : Bool :=
  if (trim tx.PartnerName.data).isEmpty then false
  else if pageNumberMatch (trim tx.PartnerName.data) then false
  else if skipPatterns.any (fun pat =>
      containsStr ((trim tx.PartnerName.data).map Char.toLower) (pat.map Char.toLower)) then
    false
  else if golen (trim tx.PartnerName.data) < 3 then false
  else true

/-- The partner name the scan of candidate index `i` resolves to. -/
def partnerPick (lines : List Line) (i : Nat) : Line :=
  foldPartner [] (partnerWindow lines i)

/-- The acceptance filter at the end of a loop iteration (`if tx.BookingDate
!= "" && tx.Amount != ""`, the comma check, `isRealTransaction`, and the
value-date default). -/
def acceptTx (ds : DateAcc) (p : Line) (amount : Line) : Option Transaction :=
  if !ds.bd.isEmpty && !amount.isEmpty then
    if containsStr amount ",".data then
      if isRealTransaction ⟨String.mk ds.bd, String.mk ds.vd, String.mk p, String.mk amount⟩ then
        some (if String.mk ds.vd = "" then
                ⟨String.mk ds.bd, String.mk ds.bd, String.mk p, String.mk amount⟩
              else
                ⟨String.mk ds.bd, String.mk ds.vd, String.mk p, String.mk amount⟩)
      else none
    else none
  else none

/-- The body of the `parseTransactionsFromText` loop for index `i`: the
transaction appended for this line, if any. -/
def emitAt (lines : List Line) (i : Nat) : Option Transaction :=
  match lines[i]? with
  | none => none
  | some raw =>
    if (trim raw).isEmpty then none
    else if fullAmountLine (trim raw) then
      acceptTx (foldDates ⟨[], []⟩ (dateWindow lines i)) (partnerPick lines i)
        (trim (dropEuro (trim (trim raw))))
    else none

/-- The transaction list `parseTransactionsFromText` accumulates: one
(optional) append per loop index, in index order. -/
def transactionsFromLines (lines : List Line) : List Transaction :=
  (List.range lines.length).filterMap (emitAt lines)

/-- `parseTransactionsFromText`.  The Go function's only `return` is
`return transactions, nil`, hence the unconditional `Except.ok`. -/
def parseTransactionsFromText (text : String) : Except String (List Transaction) :=
  Except.ok (transactionsFromLines (splitLines text.data))

def esMarker1 : Line := "Tu nuevo saldo".data
def esMarker2 : Line := "tu nuevo saldo".data
def enMarker1 : Line := "Your new balance".data
def enMarker2 : Line := "your new balance".data

/-- The post-processing of a selected balance match:
`TrimSpace`, `TrimSuffix "€"`, `TrimSpace`. -/
def cleanBalance (m : Line) : Line := trim (dropEuro (trim m))

/-- One marker attempt of the balance loop: when the marker test on the
current line succeeded and a next line exists, the last amount-pattern match
on the trimmed next line. -/
def balanceAttempt (marker : Bool) (rest : List Line) : Option Line :=
  if marker then
    match rest with
    | [] => none
    | nl :: _ => (findAllAmounts (trim nl)).getLast?
  else none

/-- The `parseBalanceFromText` loop. -/
def balanceScan : List Line → Option AccountBalance
  | [] => none
  | l :: rest =>
    match balanceAttempt (containsStr (trim l) esMarker1 || containsStr (trim l) esMarker2) rest with
    | some m => some ⟨String.mk (cleanBalance m)⟩
    | none =>
      match balanceAttempt (containsStr (trim l) enMarker1 || containsStr (trim l) enMarker2) rest with
      | some m => some ⟨String.mk (cleanBalance m)⟩
      | none => balanceScan rest

/-- The amount format of the data model: `^[+-]?\d+,\d{2}$` — an optional
sign, digits, a comma, exactly two digits, nothing else (no currency symbol,
no white space). -/
def amountShape (l : Line) : Bool :=
  let l1 :=
    match l with
    | c :: cs => if c = '+' || c = '-' then cs else l
    | [] => l
  !(l1.takeWhile isDigitGo).isEmpty &&
    match l1.dropWhile isDigitGo with
    | [sep, d1, d2] => sep = ',' && isDigitGo d1 && isDigitGo d2
    | _ => false

/-- The date format of the data model: exactly `\d{2}\.\d{2}\.\d{4}`. -/
def dateShape : Line → Bool
  | [a, b, x, c, d, y, e, f, g, h] =>
    isDigitGo a && isDigitGo b && x = '.' && isDigitGo c && isDigitGo d &&
    y = '.' && isDigitGo e && isDigitGo f && isDigitGo g && isDigitGo h
  | _ => false

/-- The value dates a window offers: for each line containing "Fecha de
valor", its first date match (if any), in window order. -/
def fechaDates (w : List Line) : List Line :=
  w.filterMap fun l =>
    if containsStr (trim l) fechaStr then findFirstDate (trim l) else none

/-- The non-skipped (trimmed) candidate lines of the partner window of
index `i`. -/
def partnerCands (lines : List Line) (i : Nat) : List Line :=
  ((partnerWindow lines i).map trim).filter fun cl => !partnerSkip cl

def balanceNotFound : String := "balance not found in PDF"

/-- `parseBalanceFromText`. -/
def parseBalanceFromText (text : String) : Except String AccountBalance :=
  match balanceScan (splitLines text.data) with
  | some b => Except.ok b
  | none => Except.error balanceNotFound

/-! ### Character-class and list helper lemmas -/

lemma isGoSpace_of_isRegexSpace {c : Char} (h : isRegexSpace c = true) :
    isGoSpace c = true := by
  simp only [isRegexSpace, Bool.or_eq_true, decide_eq_true_eq] at h
  simp only [isGoSpace, Bool.or_eq_true, decide_eq_true_eq, Bool.and_eq_true]
  omega

lemma not_goSpace_of_isDigitGo {c : Char} (h : isDigitGo c = true) :
    isGoSpace c = false := by
  simp only [isDigitGo, Bool.and_eq_true, decide_eq_true_eq] at h
  simp only [isGoSpace, Bool.or_eq_false_iff, decide_eq_false_iff_not,
    Bool.and_eq_false_iff, decide_eq_true_eq]
  omega

lemma ne_euro_of_isDigitGo {c : Char} (h : isDigitGo c = true) : c ≠ '€' := by
  rintro rfl
  exact absurd h (by decide)

lemma dropWhile_append_all {p : Char → Bool} {a : Line} (b : Line)
    (ha : ∀ c ∈ a, p c = true) : (a ++ b).dropWhile p = b.dropWhile p := by
  induction a with
  | nil => rfl
  | cons c a ih =>
    have hc : p c = true := ha c (by simp)
    simp only [List.cons_append, List.dropWhile_cons_of_pos hc]
    exact ih fun x hx => ha x (by simp [hx])

lemma dropWhile_eq_nil_all {p : Char → Bool} {l : Line}
    (h : l.dropWhile p = []) : ∀ c ∈ l, p c = true := by
  intro c hc
  have hs := List.takeWhile_append_dropWhile (p := p) (l := l)
  rw [h, List.append_nil] at hs
  exact List.mem_takeWhile_imp (hs ▸ hc)

lemma span_append {p : Char → Bool} {a b : Line}
    (ha : ∀ c ∈ a, p c = true) (hb : ∀ x, b.head? = some x → p x = false) :
    (a ++ b).takeWhile p = a ∧ (a ++ b).dropWhile p = b := by
  induction a with
  | nil =>
    cases b with
    | nil => simp
    | cons x xs =>
      have hx := hb x rfl
      simp [List.takeWhile_cons, List.dropWhile_cons, hx]
  | cons c a ih =>
    have hc : p c = true := ha c (by simp)
    have hrec := ih fun x hx => ha x (by simp [hx])
    refine ⟨?_, ?_⟩
    · simp [List.takeWhile_cons_of_pos hc, hrec.1]
    · simp [List.dropWhile_cons_of_pos hc, hrec.2]

lemma dropWhile_head_false {p : Char → Bool} {l : Line} {x : Char} {xs : Line}
    (h : l.dropWhile p = x :: xs) : p x = false := by
  induction l with
  | nil => simp at h
  | cons c cs ih =>
    by_cases hc : p c = true
    · rw [List.dropWhile_cons_of_pos hc] at h
      exact ih h
    · rw [List.dropWhile_cons_of_neg hc] at h
      obtain ⟨rfl, -⟩ := List.cons.inj h
      simpa using hc

lemma dropWhile_head?_false {p : Char → Bool} {l : Line} {x : Char}
    (h : (l.dropWhile p).head? = some x) : p x = false := by
  cases hd : l.dropWhile p with
  | nil => rw [hd] at h; simp at h
  | cons y ys =>
    rw [hd] at h
    simp only [List.head?_cons, Option.some.injEq] at h
    subst h
    exact dropWhile_head_false hd

lemma dropWhile_eq_self_of_head {p : Char → Bool} {l : Line}
    (h : ∀ x, l.head? = some x → p x = false) : l.dropWhile p = l := by
  cases l with
  | nil => rfl
  | cons c cs =>
    have := h c rfl
    exact List.dropWhile_cons_of_neg (by simp [this])

/-! ### `trim` lemmas -/

lemma trim_append_right {l sp : Line} (hsp : ∀ c ∈ sp, isGoSpace c = true)
    (hh : ∀ x, l.head? = some x → isGoSpace x = false)
    (hl : ∀ x, l.getLast? = some x → isGoSpace x = false) :
    trim (l ++ sp) = l := by
  cases l with
  | nil =>
    simp only [List.nil_append, trim]
    have h1 : sp.dropWhile isGoSpace = [] := by
      have := (span_append (b := ([] : Line)) (fun c hc => hsp c hc)
        (fun x hx => by simp at hx)).2
      simpa using this
    simp [h1]
  | cons c rest =>
    have hc : isGoSpace c = false := hh c rfl
    unfold trim
    have h1 : (c :: rest ++ sp).dropWhile isGoSpace = c :: rest ++ sp :=
      List.dropWhile_cons_of_neg (by simp [hc])
    rw [h1]
    have h2 : (c :: rest ++ sp).reverse = sp.reverse ++ (c :: rest).reverse := by
      rw [← List.reverse_append]
    rw [h2, dropWhile_append_all _ (by simpa using fun c hc => hsp c hc)]
    have hrev : (c :: rest).reverse.dropWhile isGoSpace = (c :: rest).reverse := by
      apply dropWhile_eq_self_of_head
      intro x hx
      exact hl x (by rw [← List.head?_reverse]; exact hx)
    rw [hrev, List.reverse_reverse]

lemma trim_eq_self {l : Line}
    (hh : ∀ x, l.head? = some x → isGoSpace x = false)
    (hl : ∀ x, l.getLast? = some x → isGoSpace x = false) :
    trim l = l := by
  have := @trim_append_right l [] (fun c hc => by simp at hc) hh hl
  simpa using this

lemma trim_head_not_space {l : Line} :
    ∀ x, (trim l).head? = some x → isGoSpace x = false := by
  intro x hx
  unfold trim at hx
  set m := l.dropWhile isGoSpace with hm
  set d := m.reverse.dropWhile isGoSpace with hd
  have hsplit : m.reverse.takeWhile isGoSpace ++ d = m.reverse :=
    List.takeWhile_append_dropWhile isGoSpace m.reverse
  have hmd : m = d.reverse ++ (m.reverse.takeWhile isGoSpace).reverse := by
    have := congrArg List.reverse hsplit
    simpa [List.reverse_append] using this.symm
  have hmh : m.head? = some x := by
    rw [hmd]
    cases hdr : d.reverse with
    | nil => rw [hdr] at hx; simp at hx
    | cons y ys =>
      rw [hdr] at hx
      simpa using hx
  rw [hm] at hmh
  exact dropWhile_head?_false hmh

lemma trim_last_not_space {l : Line} :
    ∀ x, (trim l).getLast? = some x → isGoSpace x = false := by
  intro x hx
  unfold trim at hx
  rw [List.getLast?_reverse] at hx
  exact dropWhile_head?_false hx

lemma trim_trim (l : Line) : trim (trim l) = trim l :=
  trim_eq_self trim_head_not_space trim_last_not_space

/-! ### `String.mk` lemmas -/

lemma mk_data (l : Line) : (String.mk l).data = l := rfl

lemma mk_eq_empty_iff {l : Line} : String.mk l = "" ↔ l = [] := by
  constructor
  · intro h
    have := congrArg String.data h
    simpa using this
  · rintro rfl
    rfl

/-! ### Date-scan lemmas -/

lemma matchDateAt_shape {l d r : Line} (h : matchDateAt l = some (d, r)) :
    dateShape d = true := by
  unfold matchDateAt at h
  split at h
  · split at h
    · simp only [Option.some.injEq, Prod.mk.injEq] at h
      obtain ⟨rfl, rfl⟩ := h
      rename_i hcond
      simpa [dateShape] using hcond
    · exact absurd h (by simp)
  · exact absurd h (by simp)

lemma dateShape_ne_nil {d : Line} (h : dateShape d = true) : d ≠ [] := by
  intro hd
  subst hd
  simp [dateShape] at h

lemma findFirstDate_shape {l d : Line} (h : findFirstDate l = some d) :
    dateShape d = true := by
  induction l with
  | nil => simp [findFirstDate] at h
  | cons c cs ih =>
    unfold findFirstDate at h
    cases hm : matchDateAt (c :: cs) with
    | some pr =>
      obtain ⟨d', r'⟩ := pr
      rw [hm] at h
      simp only [Option.some.injEq] at h
      subst h
      exact matchDateAt_shape hm
    | none =>
      rw [hm] at h
      exact ih h

lemma findFirstDate_ne_nil {l d : Line} (h : findFirstDate l = some d) : d ≠ [] :=
  dateShape_ne_nil (findFirstDate_shape h)

lemma dateStep_bd_of_ne {s : DateAcc} {raw : Line} (h : s.bd ≠ []) :
    (dateStep s raw).bd = s.bd := by
  have hbe : s.bd.isEmpty = false := by simpa [List.isEmpty_iff] using h
  by_cases hc : containsStr (trim raw) fechaStr = true
  · cases hf : findFirstDate (trim raw) with
    | some d => simp [dateStep, hc, hf]
    | none => simp [dateStep, hc, hf]
  · simp at hc
    cases hf : findFirstDate (trim raw) with
    | some d => simp [dateStep, hc, hf, hbe]
    | none => simp [dateStep, hc, hf, hbe]

lemma foldDates_bd_of_ne {w : List Line} {s : DateAcc} (h : s.bd ≠ []) :
    (foldDates s w).bd = s.bd := by
  induction w generalizing s with
  | nil => rfl
  | cons l rest ih =>
    have h1 := @dateStep_bd_of_ne s l h
    have h2 : (dateStep s l).bd ≠ [] := by rw [h1]; exact h
    calc (foldDates s (l :: rest)).bd = (foldDates (dateStep s l) rest).bd := rfl
      _ = (dateStep s l).bd := ih h2
      _ = s.bd := h1

lemma dateStep_vd_eq_bd {s : DateAcc} {raw : Line}
    (hc : containsStr (trim raw) fechaStr = false) (h : s.vd = s.bd) :
    (dateStep s raw).vd = (dateStep s raw).bd := by
  cases hf : findFirstDate (trim raw) with
  | some d =>
    by_cases hb : s.bd.isEmpty = true
    · have hv : s.vd.isEmpty = true := by rw [h]; exact hb
      by_cases hlen : golen (trim raw) < 20
      · simp [dateStep, hc, hf, hb, hv, hlen]
      · simp [dateStep, hc, hf, hb, hv, hlen, h]
    · simp at hb
      have hbe : s.bd.isEmpty = false := by simpa [List.isEmpty_iff] using hb
      simp [dateStep, hc, hf, hbe, h]
  | none =>
    by_cases hb : s.bd.isEmpty = true
    · simp [dateStep, hc, hf, hb, h]
    · simp at hb
      have hbe : s.bd.isEmpty = false := by simpa [List.isEmpty_iff] using hb
      simp [dateStep, hc, hf, hbe, h]

lemma foldDates_vd_eq_bd {w : List Line} {s : DateAcc}
    (hw : ∀ l ∈ w, containsStr (trim l) fechaStr = false) (h : s.vd = s.bd) :
    (foldDates s w).vd = (foldDates s w).bd := by
  induction w generalizing s with
  | nil => exact h
  | cons l rest ih =>
    have hc : containsStr (trim l) fechaStr = false := hw l (by simp)
    exact ih (fun x hx => hw x (by simp [hx])) (dateStep_vd_eq_bd hc h)

lemma fechaDates_cons (l : Line) (rest : List Line) :
    fechaDates (l :: rest) =
      (match (if containsStr (trim l) fechaStr then findFirstDate (trim l) else none) with
        | some d => d :: fechaDates rest
        | none => fechaDates rest) := by
  unfold fechaDates
  rw [List.filterMap_cons]
  split <;> rename_i heq <;> simp [heq]

lemma dateStep_vd_of_no_fecha {s : DateAcc} {raw : Line}
    (hc : (if containsStr (trim raw) fechaStr then findFirstDate (trim raw) else none) = none)
    (h : s.vd ≠ []) : (dateStep s raw).vd = s.vd := by
  have hve : s.vd.isEmpty = false := by simpa [List.isEmpty_iff] using h
  by_cases hcc : containsStr (trim raw) fechaStr = true
  · rw [if_pos hcc] at hc
    by_cases hb : s.bd.isEmpty = true
    · simp [dateStep, hcc, hc, hb]
    · simp at hb
      have hbe : s.bd.isEmpty = false := by simpa [List.isEmpty_iff] using hb
      simp [dateStep, hcc, hc, hbe]
  · simp at hcc
    cases hf : findFirstDate (trim raw) with
    | some d =>
      by_cases hlen : golen (trim raw) < 20
      · simp only [dateStep, hcc, hf, hlen, hve, if_true, if_false, Bool.not_false,
          Bool.and_true, Bool.ite_eq_true_distrib]
        split
        · rename_i hcontra
          simp at hcontra
        · split <;> simp [hve]
      · simp [dateStep, hcc, hf, hlen]
    | none => simp [dateStep, hcc, hf]

lemma foldDates_vd_of_no_fecha {w : List Line} {s : DateAcc}
    (hw : fechaDates w = []) (h : s.vd ≠ []) : (foldDates s w).vd = s.vd := by
  induction w generalizing s with
  | nil => rfl
  | cons l rest ih =>
    rw [fechaDates_cons] at hw
    cases hc : (if containsStr (trim l) fechaStr then findFirstDate (trim l) else none) with
    | some d =>
      rw [hc] at hw
      simp at hw
    | none =>
    rw [hc] at hw
    have h1 := @dateStep_vd_of_no_fecha s l hc h
    have h2 : (dateStep s l).vd ≠ [] := by rw [h1]; exact h
    calc (foldDates s (l :: rest)).vd = (foldDates (dateStep s l) rest).vd := rfl
      _ = (dateStep s l).vd := ih hw h2
      _ = s.vd := h1

lemma foldDates_vd_last_fecha {w : List Line} {s : DateAcc} {d : Line}
    (hd : (fechaDates w).getLast? = some d) : (foldDates s w).vd = d := by
  induction w generalizing s with
  | nil => simp [fechaDates] at hd
  | cons l rest ih =>
    rw [fechaDates_cons] at hd
    cases hc : (if containsStr (trim l) fechaStr then findFirstDate (trim l) else none) with
    | some d0 =>
      rw [hc] at hd
      cases hrest : fechaDates rest with
      | nil =>
        rw [hrest] at hd
        have hd0 : d = d0 := by
          have : ([d0] : List Line).getLast? = some d := hd
          simpa using this.symm
        subst hd0
        -- the step writes d0 into vd, and no later line overwrites it
        have hcc : containsStr (trim l) fechaStr = true := by
          by_contra hne
          simp only [Bool.not_eq_true] at hne
          rw [if_neg (by simp [hne])] at hc
          exact absurd hc (by simp)
        have hff : findFirstDate (trim l) = some d := by
          rw [if_pos hcc] at hc
          exact hc
        have hstep : (dateStep s l).vd = d := by
          by_cases hb : s.bd.isEmpty = true
          · simp [dateStep, hcc, hff, hb]
          · simp at hb
            have hbe : s.bd.isEmpty = false := by simpa [List.isEmpty_iff] using hb
            simp [dateStep, hcc, hff, hbe]
        have hne : (dateStep s l).vd ≠ [] := by
          rw [hstep]
          exact findFirstDate_ne_nil hff
        calc (foldDates s (l :: rest)).vd = (foldDates (dateStep s l) rest).vd := rfl
          _ = (dateStep s l).vd := foldDates_vd_of_no_fecha hrest hne
          _ = d := hstep
      | cons e es =>
        rw [hrest] at hd
        have hd' : (fechaDates rest).getLast? = some d := by
          rw [hrest]
          simpa using hd
        exact ih hd'
    | none =>
      rw [hc] at hd
      exact ih hd

lemma dateStep_bd_shape {s : DateAcc} {raw : Line}
    (h : s.bd = [] ∨ dateShape s.bd = true) :
    (dateStep s raw).bd = [] ∨ dateShape (dateStep s raw).bd = true := by
  by_cases hc : containsStr (trim raw) fechaStr = true
  · cases hf : findFirstDate (trim raw) with
    | some d => simpa [dateStep, hc, hf] using h
    | none => simpa [dateStep, hc, hf] using h
  · simp at hc
    cases hf : findFirstDate (trim raw) with
    | some d =>
      by_cases hb : s.bd.isEmpty = true
      · by_cases hlen : golen (trim raw) < 20
        · right
          simpa [dateStep, hc, hf, hb, hlen] using findFirstDate_shape hf
        · simpa [dateStep, hc, hf, hb, hlen] using h
      · simp at hb
        have hbe : s.bd.isEmpty = false := by simpa [List.isEmpty_iff] using hb
        simpa [dateStep, hc, hf, hbe] using h
    | none =>
      by_cases hb : s.bd.isEmpty = true
      · simpa [dateStep, hc, hf, hb] using h
      · simp at hb
        have hbe : s.bd.isEmpty = false := by simpa [List.isEmpty_iff] using hb
        simpa [dateStep, hc, hf, hbe] using h

lemma foldDates_bd_shape {w : List Line} {s : DateAcc}
    (h : s.bd = [] ∨ dateShape s.bd = true) :
    (foldDates s w).bd = [] ∨ dateShape (foldDates s w).bd = true := by
  induction w generalizing s with
  | nil => exact h
  | cons l rest ih => exact ih (dateStep_bd_shape h)

/-! ### Partner-scan lemmas -/

/-- The selection step of the partner loop once a candidate line survived the
skip test: keep the longer line, first seen winning ties. -/
def chooseLonger (b l : Line) : Line :=
  if b.isEmpty || golen l > golen b then l else b

lemma partnerSkip_false_golen {cl : Line} (h : partnerSkip cl = false) :
    3 ≤ golen cl := by
  simp only [partnerSkip, Bool.or_eq_false_iff, decide_eq_false_iff_not] at h
  omega

lemma ne_nil_of_golen3 {l : Line} (h : 3 ≤ golen l) : l ≠ [] := by
  intro hl
  subst hl
  simp [golen] at h

lemma partnerStep_eq (p raw : Line) :
    partnerStep p raw =
      if partnerSkip (trim raw) then p else chooseLonger p (trim raw) := by
  by_cases hs : partnerSkip (trim raw) = true
  · simp [partnerStep, hs]
  · simp only [Bool.not_eq_true] at hs
    have h3 := partnerSkip_false_golen hs
    have h2 : golen (trim raw) > 2 := by omega
    simp [partnerStep, chooseLonger, hs, h2]

lemma foldPartner_eq_cands (w : List Line) (p : Line) :
    foldPartner p w =
      List.foldl chooseLonger p ((w.map trim).filter fun cl => !partnerSkip cl) := by
  induction w generalizing p with
  | nil => rfl
  | cons l rest ih =>
    by_cases hs : partnerSkip (trim l) = true
    · have hstep : partnerStep p l = p := by rw [partnerStep_eq, if_pos hs]
      have hf : (((l :: rest).map trim).filter fun cl => !partnerSkip cl) =
          ((rest.map trim).filter fun cl => !partnerSkip cl) := by
        simp [hs]
      calc foldPartner p (l :: rest) = foldPartner (partnerStep p l) rest := rfl
        _ = foldPartner p rest := by rw [hstep]
        _ = _ := by rw [ih, hf]
    · simp only [Bool.not_eq_true] at hs
      have hstep : partnerStep p l = chooseLonger p (trim l) := by
        rw [partnerStep_eq, if_neg (by simp [hs])]
      have hf : (((l :: rest).map trim).filter fun cl => !partnerSkip cl) =
          trim l :: ((rest.map trim).filter fun cl => !partnerSkip cl) := by
        simp [hs]
      calc foldPartner p (l :: rest) = foldPartner (partnerStep p l) rest := rfl
        _ = foldPartner (chooseLonger p (trim l)) rest := by rw [hstep]
        _ = _ := by rw [ih, hf, List.foldl_cons]

lemma foldl_chooseLonger_firstMax :
    ∀ (cs : List Line) (a : Line), a ≠ [] → (∀ c ∈ cs, c ≠ []) →
      ∃ pre post, a :: cs = pre ++ (List.foldl chooseLonger a cs) :: post ∧
        (∀ c ∈ pre, golen c < golen (List.foldl chooseLonger a cs)) ∧
        (∀ c ∈ post, golen c ≤ golen (List.foldl chooseLonger a cs)) := by
  intro cs
  induction cs with
  | nil =>
    intro a ha _
    exact ⟨[], [], by simp, by simp, by simp⟩
  | cons c cs ih =>
    intro a ha hcs
    have hc : c ≠ [] := hcs c (by simp)
    have hcs' : ∀ x ∈ cs, x ≠ [] := fun x hx => hcs x (by simp [hx])
    have hae : a.isEmpty = false := by simpa [List.isEmpty_iff] using ha
    by_cases hgt : golen c > golen a
    · have hstep : chooseLonger a c = c := by simp [chooseLonger, hae, hgt]
      have hfold : List.foldl chooseLonger a (c :: cs) = List.foldl chooseLonger c cs := by
        rw [List.foldl_cons, hstep]
      obtain ⟨pre, post, hsplit, hpre, hpost⟩ := ih c hc hcs'
      have har : golen a < golen (List.foldl chooseLonger c cs) := by
        cases pre with
        | nil =>
          have hcr : c = List.foldl chooseLonger c cs := by
            simpa using congrArg List.head? hsplit
          rw [← hcr]
          exact hgt
        | cons p0 pre' =>
          have hp0 : c = p0 := by
            simpa using congrArg List.head? hsplit
          have := hpre p0 (by simp)
          rw [← hp0] at this
          omega
      refine ⟨a :: pre, post, ?_, ?_, ?_⟩
      · rw [hfold]
        rw [List.cons_append, ← hsplit]
      · intro x hx
        rw [hfold]
        rcases List.mem_cons.1 hx with rfl | hx'
        · exact har
        · exact hpre x hx'
      · intro x hx
        rw [hfold]
        exact hpost x hx
    · have hstep : chooseLonger a c = a := by simp [chooseLonger, hae, hgt]
      have hfold : List.foldl chooseLonger a (c :: cs) = List.foldl chooseLonger a cs := by
        rw [List.foldl_cons, hstep]
      obtain ⟨pre, post, hsplit, hpre, hpost⟩ := ih a ha hcs'
      cases pre with
      | nil =>
        simp only [List.nil_append] at hsplit
        obtain ⟨hra, hpost'⟩ := List.cons.inj hsplit
        refine ⟨[], c :: cs, ?_, by simp, ?_⟩
        · rw [hfold, ← hra]
          simp
        · intro x hx
          rw [hfold, ← hra]
          rcases List.mem_cons.1 hx with rfl | hx'
          · omega
          · have hxp : x ∈ post := hpost' ▸ hx'
            have hle := hpost x hxp
            rw [← hra] at hle
            exact hle
      | cons p0 pre' =>
        simp only [List.cons_append] at hsplit
        obtain ⟨hp0, hcs2⟩ := List.cons.inj hsplit
        refine ⟨a :: c :: pre', post, ?_, ?_, ?_⟩
        · rw [hfold]
          simp only [List.cons_append]
          rw [← hcs2]
        · intro x hx
          rw [hfold]
          have hpa : golen a < golen (List.foldl chooseLonger a cs) := by
            have := hpre p0 (by simp)
            rw [← hp0] at this
            exact this
          rcases List.mem_cons.1 hx with rfl | hx'
          · exact hpa
          · rcases List.mem_cons.1 hx' with rfl | hx''
            · omega
            · exact hpre x (by simp [hx''])
        · intro x hx
          rw [hfold]
          exact hpost x hx

lemma partnerCands_golen {lines : List Line} {i : Nat} :
    ∀ c ∈ partnerCands lines i, 3 ≤ golen c := by
  intro c hc
  unfold partnerCands at hc
  have := (List.mem_filter.1 hc).2
  simp only [Bool.not_eq_true'] at this
  exact partnerSkip_false_golen this

lemma partnerPick_firstMax {lines : List Line} {i : Nat}
    (h : partnerCands lines i ≠ []) :
    ∃ pre post, partnerCands lines i = pre ++ (partnerPick lines i) :: post ∧
      (∀ c ∈ pre, golen c < golen (partnerPick lines i)) ∧
      (∀ c ∈ post, golen c ≤ golen (partnerPick lines i)) := by
  have hpick : partnerPick lines i =
      List.foldl chooseLonger [] (partnerCands lines i) := by
    unfold partnerPick partnerCands
    exact foldPartner_eq_cands _ _
  cases hcs : partnerCands lines i with
  | nil => exact absurd hcs h
  | cons c cs =>
    have hc : c ≠ [] :=
      ne_nil_of_golen3 (partnerCands_golen c (by rw [hcs]; simp))
    have hcs' : ∀ x ∈ cs, x ≠ [] := fun x hx =>
      ne_nil_of_golen3 (partnerCands_golen x (by rw [hcs]; simp [hx]))
    have hfold : List.foldl chooseLonger ([] : Line) (c :: cs) =
        List.foldl chooseLonger c cs := rfl
    rw [hpick, hcs, hfold]
    exact foldl_chooseLonger_firstMax cs c hc hcs'

lemma foldPartner_trimmed {w : List Line} {p : Line} (hp : trim p = p) :
    trim (foldPartner p w) = foldPartner p w := by
  induction w generalizing p with
  | nil => exact hp
  | cons l rest ih =>
    have hstep : trim (partnerStep p l) = partnerStep p l := by
      rw [partnerStep_eq]
      split
      · exact hp
      · unfold chooseLonger
        split
        · exact trim_trim _
        · exact hp
    exact ih hstep

lemma partnerPick_trimmed (lines : List Line) (i : Nat) :
    trim (partnerPick lines i) = partnerPick lines i :=
  foldPartner_trimmed rfl

/-! ### Full-line amount-pattern lemmas -/

lemma ne_of_class {f : Char → Bool} {c c' : Char} (h : f c = true)
    (h' : f c' = false) : c ≠ c' := by
  rintro rfl
  rw [h] at h'
  exact Bool.noConfusion h'

lemma amountShape_of_parts {core : Line} {d1 d2 i0 : Char}
    (hA : (core.takeWhile isDigitGo).isEmpty = false)
    (hB : core.dropWhile isDigitGo = [',', d1, d2])
    (hd1 : isDigitGo d1 = true) (hd2 : isDigitGo d2 = true)
    (hC : core.head? = some i0) (hi0 : isDigitGo i0 = true) :
    amountShape core = true ∧
      ∀ c, (c = '+' ∨ c = '-') → amountShape (c :: core) = true := by
  cases core with
  | nil => simp at hC
  | cons x xs =>
    simp only [List.head?_cons, Option.some.injEq] at hC
    rcases hC with rfl
    have hxp : x ≠ '+' := ne_of_class (f := isDigitGo) hi0 (by decide)
    have hxm : x ≠ '-' := ne_of_class (f := isDigitGo) hi0 (by decide)
    have hbool : (x = '+' || x = '-') = false := by simp [hxp, hxm]
    constructor
    · unfold amountShape
      simp only [hbool, Bool.false_eq_true, if_false, hB, hA]
      simp [hd1, hd2]
    · intro c hc
      have hcs : (c = '+' || c = '-') = true := by
        rcases hc with rfl | rfl <;> simp
      unfold amountShape
      simp only [hcs, if_true, hB, hA]
      simp [hd1, hd2]

lemma parseFullAmountTail_sound {l1 core : Line}
    (h : parseFullAmountTail l1 = some core) :
    (core.takeWhile isDigitGo).isEmpty = false ∧
    (∃ d1 d2, core.dropWhile isDigitGo = [',', d1, d2] ∧
      isDigitGo d1 = true ∧ isDigitGo d2 = true) ∧
    (∃ i0, core.head? = some i0 ∧ isDigitGo i0 = true) ∧
    (∃ d2, core.getLast? = some d2 ∧ isDigitGo d2 = true) ∧
    ((∃ sp, (∀ c ∈ sp, isRegexSpace c = true) ∧ l1 = core ++ sp) ∨
     (∃ sp1 sp2, (∀ c ∈ sp1, isRegexSpace c = true) ∧
       (∀ c ∈ sp2, isRegexSpace c = true) ∧ l1 = core ++ sp1 ++ '€' :: sp2)) := by
  unfold parseFullAmountTail at h
  by_cases hint : (l1.takeWhile isDigitGo).isEmpty = true
  · rw [if_pos hint] at h
    exact absurd h (by simp)
  simp only [Bool.not_eq_true] at hint
  rw [if_neg (by simp [hint])] at h
  split at h
  on_goal 2 => exact absurd h (by simp)
  rename_i sep d1 d2 l3 heq
  split at h
  on_goal 2 => exact absurd h (by simp)
  rename_i hcond
  simp only [decide_eq_true_eq, Bool.and_eq_true] at hcond
  obtain ⟨⟨hsep, hd1⟩, hd2⟩ := hcond
  subst hsep
  -- shared facts about the shape of the returned core
  set intd := l1.takeWhile isDigitGo with hintd
  have hdig : ∀ c ∈ intd, isDigitGo c = true := fun c hc => List.mem_takeWhile_imp hc
  have hl1 : l1 = intd ++ ',' :: d1 :: d2 :: l3 := by
    rw [hintd, ← heq]
    exact (List.takeWhile_append_dropWhile isDigitGo l1).symm
  have hsepFail : ∀ x : Char, ([',', d1, d2] : Line).head? = some x → isDigitGo x = false := by
    intro x hx
    simp only [List.head?_cons, Option.some.injEq] at hx
    subst hx
    decide
  have hspan := span_append (p := isDigitGo) (a := intd) (b := [',', d1, d2]) hdig hsepFail
  have main : ∀ cr : Line, cr = intd ++ [',', d1, d2] →
      (cr.takeWhile isDigitGo).isEmpty = false ∧
      (∃ e1 e2, cr.dropWhile isDigitGo = [',', e1, e2] ∧
        isDigitGo e1 = true ∧ isDigitGo e2 = true) ∧
      (∃ i0, cr.head? = some i0 ∧ isDigitGo i0 = true) ∧
      (∃ e2, cr.getLast? = some e2 ∧ isDigitGo e2 = true) := by
    intro cr hcr
    refine ⟨?_, ⟨d1, d2, ?_, hd1, hd2⟩, ?_, ?_⟩
    · rw [hcr, hspan.1]
      simpa [List.isEmpty_iff] using hint
    · rw [hcr]
      exact hspan.2
    · cases hin : intd with
      | nil => rw [hin] at hint; simp at hint
      | cons i0 irest =>
        refine ⟨i0, ?_, hdig i0 (by rw [hin]; simp)⟩
        rw [hcr, hin]
        rfl
    · refine ⟨d2, ?_, hd2⟩
      have hre : cr = (intd ++ [',', d1]) ++ [d2] := by
        rw [hcr]
        simp
      rw [hre]
      exact List.getLast?_concat _
  by_cases heu : (l3.dropWhile isRegexSpace).head? = some '€'
  · rw [if_pos heu] at h
    by_cases hemp : ((l3.dropWhile isRegexSpace).tail.dropWhile isRegexSpace).isEmpty = true
    case neg => rw [if_neg hemp] at h; exact absurd h (by simp)
    rw [if_pos hemp] at h
    have hcore : core = intd ++ [',', d1, d2] := (Option.some.inj h).symm
    obtain ⟨h1, h2, h3, h4⟩ := main core hcore
    refine ⟨h1, h2, h3, h4, Or.inr ?_⟩
    cases hl4 : l3.dropWhile isRegexSpace with
    | nil => rw [hl4] at heu; simp at heu
    | cons c' r =>
      rw [hl4] at heu
      simp only [List.head?_cons, Option.some.injEq] at heu
      subst heu
      rw [hl4] at hemp
      simp only [List.tail_cons] at hemp
      have hr : ∀ c ∈ r, isRegexSpace c = true :=
        dropWhile_eq_nil_all (by simpa [List.isEmpty_iff] using hemp)
      have hsp1 : ∀ c ∈ l3.takeWhile isRegexSpace, isRegexSpace c = true :=
        fun c hc => List.mem_takeWhile_imp hc
      have hl3 : l3 = l3.takeWhile isRegexSpace ++ '€' :: r := by
        rw [← hl4]
        exact (List.takeWhile_append_dropWhile isRegexSpace l3).symm
      refine ⟨l3.takeWhile isRegexSpace, r, hsp1, hr, ?_⟩
      rw [hl1, hcore]
      conv_lhs => rw [hl3]
      simp
  · rw [if_neg heu] at h
    by_cases hemp : ((l3.dropWhile isRegexSpace).dropWhile isRegexSpace).isEmpty = true
    case neg => rw [if_neg hemp] at h; exact absurd h (by simp)
    rw [if_pos hemp] at h
    have hcore : core = intd ++ [',', d1, d2] := (Option.some.inj h).symm
    obtain ⟨h1, h2, h3, h4⟩ := main core hcore
    refine ⟨h1, h2, h3, h4, Or.inl ?_⟩
    have hself : (l3.dropWhile isRegexSpace).dropWhile isRegexSpace =
        l3.dropWhile isRegexSpace :=
      dropWhile_eq_self_of_head fun x hx => dropWhile_head?_false hx
    rw [hself] at hemp
    have hnil : l3.dropWhile isRegexSpace = [] := by
      simpa [List.isEmpty_iff] using hemp
    refine ⟨l3, dropWhile_eq_nil_all hnil, ?_⟩
    rw [hl1, hcore]
    simp
lemma parseFullAmount_sound {l core : Line} (h : parseFullAmount l = some core) :
    amountShape core = true ∧
    (∀ x, core.head? = some x → isGoSpace x = false) ∧
    (∃ d2, core.getLast? = some d2 ∧ isDigitGo d2 = true) ∧
    ((∃ sp, (∀ c ∈ sp, isGoSpace c = true) ∧ l = core ++ sp) ∨
     (∃ sp1 sp2, (∀ c ∈ sp1, isGoSpace c = true) ∧ (∀ c ∈ sp2, isGoSpace c = true) ∧
       l = core ++ sp1 ++ '€' :: sp2)) := by
  cases l with
  | nil => simp [parseFullAmount, parseFullAmountTail] at h
  | cons c cs =>
    have hred : parseFullAmount (c :: cs) =
        (if c = '+' || c = '-' then (parseFullAmountTail cs).map (fun core => c :: core)
         else parseFullAmountTail (c :: cs)) := rfl
    rw [hred] at h
    by_cases hsgn : (c = '+' || c = '-') = true
    · rw [if_pos hsgn] at h
      obtain ⟨core', hx, hfc⟩ := Option.map_eq_some'.mp h
      subst hfc
      obtain ⟨hA, ⟨d1, d2, hB, hd1, hd2⟩, ⟨i0, hC, hi0⟩, ⟨dl, hD, hdl⟩, hdec⟩ :=
        parseFullAmountTail_sound hx
      have hsgn' : c = '+' ∨ c = '-' := by simpa using hsgn
      refine ⟨(amountShape_of_parts hA hB hd1 hd2 hC hi0).2 c hsgn', ?_, ?_, ?_⟩
      · intro x hx'
        simp only [List.head?_cons, Option.some.injEq] at hx'
        rcases hx' with rfl
        rcases hsgn' with rfl | rfl <;> decide
      · refine ⟨dl, ?_, hdl⟩
        have hne : core' ≠ [] := by
          intro hh
          rw [hh] at hC
          simp at hC
        have : (c :: core' : Line) = [c] ++ core' := rfl
        rw [this, List.getLast?_append_of_ne_nil [c] hne]
        exact hD
      · rcases hdec with ⟨sp, hsp, hcs⟩ | ⟨sp1, sp2, hsp1, hsp2, hcs⟩
        · exact Or.inl ⟨sp, fun x hx2 => isGoSpace_of_isRegexSpace (hsp x hx2),
            by rw [hcs]; rfl⟩
        · exact Or.inr ⟨sp1, sp2, fun x hx2 => isGoSpace_of_isRegexSpace (hsp1 x hx2),
            fun x hx2 => isGoSpace_of_isRegexSpace (hsp2 x hx2), by rw [hcs]; rfl⟩
    · rw [if_neg hsgn] at h
      obtain ⟨hA, ⟨d1, d2, hB, hd1, hd2⟩, ⟨i0, hC, hi0⟩, ⟨dl, hD, hdl⟩, hdec⟩ :=
        parseFullAmountTail_sound h
      refine ⟨(amountShape_of_parts hA hB hd1 hd2 hC hi0).1, ?_, ⟨dl, hD, hdl⟩, ?_⟩
      · intro x hx'
        rw [hC] at hx'
        simp only [Option.some.injEq] at hx'
        rcases hx' with rfl
        exact not_goSpace_of_isDigitGo hi0
      · rcases hdec with ⟨sp, hsp, hcs⟩ | ⟨sp1, sp2, hsp1, hsp2, hcs⟩
        · exact Or.inl ⟨sp, fun x hx2 => isGoSpace_of_isRegexSpace (hsp x hx2), hcs⟩
        · exact Or.inr ⟨sp1, sp2, fun x hx2 => isGoSpace_of_isRegexSpace (hsp1 x hx2),
            fun x hx2 => isGoSpace_of_isRegexSpace (hsp2 x hx2), hcs⟩

lemma last_not_space_of_trimmed {l : Line} (ht : trim l = l) :
    ∀ x, l.getLast? = some x → isGoSpace x = false := by
  intro x hx
  have := trim_last_not_space (l := l)
  rw [ht] at this
  exact this x hx

/-- On a trimmed full-amount line, the Go post-processing
`TrimSpace(TrimSuffix(TrimSpace(line), "€"))` recovers exactly the core
`[+-]?\d+,\d{2}` of the match. -/
lemma fullAmount_core {l core : Line} (h : parseFullAmount l = some core)
    (ht : trim l = l) : trim (dropEuro l) = core ∧ amountShape core = true := by
  obtain ⟨hsh, hhead, ⟨dl, hlast, hdl⟩, hdec⟩ := parseFullAmount_sound h
  have hlne := last_not_space_of_trimmed ht
  have hcorelast : ∀ x, core.getLast? = some x → isGoSpace x = false := by
    intro x hx
    rw [hlast] at hx
    simp only [Option.some.injEq] at hx
    rcases hx with rfl
    exact not_goSpace_of_isDigitGo hdl
  rcases hdec with ⟨sp, hsp, hl⟩ | ⟨sp1, sp2, hsp1, hsp2, hl⟩
  · have hspnil : sp = [] := by
      cases hspn : sp with
      | nil => rfl
      | cons s0 srest =>
        exfalso
        have hne : (s0 :: srest : Line) ≠ [] := by simp
        have hlast2 : l.getLast? = (s0 :: srest).getLast? := by
          rw [hl, hspn]
          exact List.getLast?_append_of_ne_nil core hne
        have hx := List.getLast?_eq_getLast (s0 :: srest) hne
        have hmem := List.getLast_mem hne
        have hsx : isGoSpace ((s0 :: srest).getLast hne) = true :=
          hsp _ (by rw [hspn]; exact hmem)
        have := hlne _ (by rw [hlast2]; exact hx)
        rw [this] at hsx
        exact Bool.noConfusion hsx
    subst hspnil
    simp only [List.append_nil] at hl
    subst hl
    have hdeu : dropEuro l = l := by
      unfold dropEuro
      rw [if_neg]
      rw [hlast]
      simp only [Option.some.injEq]
      exact ne_of_class (f := isDigitGo) hdl (by decide)
    rw [hdeu, ht]
    exact ⟨rfl, hsh⟩
  · have hspnil : sp2 = [] := by
      cases hspn : sp2 with
      | nil => rfl
      | cons s0 srest =>
        exfalso
        have hne : (s0 :: srest : Line) ≠ [] := by simp
        have hlast2 : l.getLast? = (s0 :: srest).getLast? := by
          rw [hl, hspn]
          rw [List.getLast?_append_of_ne_nil (core ++ sp1)
            (by simp : ('€' :: s0 :: srest : Line) ≠ [])]
          exact List.getLast?_cons_cons
        have hx := List.getLast?_eq_getLast (s0 :: srest) hne
        have hmem := List.getLast_mem hne
        have hsx : isGoSpace ((s0 :: srest).getLast hne) = true :=
          hsp2 _ (by rw [hspn]; exact hmem)
        have := hlne _ (by rw [hlast2]; exact hx)
        rw [this] at hsx
        exact Bool.noConfusion hsx
    subst hspnil
    have hl2 : l = (core ++ sp1) ++ ['€'] := by
      rw [hl]
    have hdeu : dropEuro l = core ++ sp1 := by
      unfold dropEuro
      rw [hl2, List.getLast?_concat, if_pos rfl, List.dropLast_concat]
    rw [hdeu]
    refine ⟨?_, hsh⟩
    exact trim_append_right hsp1 hhead hcorelast

/-! ### Acceptance-filter and loop-body lemmas -/

lemma isRealTransaction_spec {tx : Transaction} (h : isRealTransaction tx = true) :
    trim tx.PartnerName.data ≠ [] ∧
    pageNumberMatch (trim tx.PartnerName.data) = false ∧
    3 ≤ golen (trim tx.PartnerName.data) := by
  unfold isRealTransaction at h
  by_cases h1 : (trim tx.PartnerName.data).isEmpty = true
  · rw [if_pos h1] at h
    exact absurd h (by simp)
  rw [if_neg h1] at h
  by_cases h2 : pageNumberMatch (trim tx.PartnerName.data) = true
  · rw [if_pos h2] at h
    exact absurd h (by simp)
  rw [if_neg h2] at h
  by_cases h3 : (skipPatterns.any fun pat =>
      containsStr ((trim tx.PartnerName.data).map Char.toLower) (pat.map Char.toLower)) = true
  · rw [if_pos h3] at h
    exact absurd h (by simp)
  rw [if_neg h3] at h
  by_cases h4 : golen (trim tx.PartnerName.data) < 3
  · rw [if_pos h4] at h
    exact absurd h (by simp)
  refine ⟨?_, ?_, ?_⟩
  · simpa [List.isEmpty_iff] using h1
  · simpa using h2
  · omega

lemma isRealTransaction_page {tx : Transaction}
    (hp : pageNumberMatch (trim tx.PartnerName.data) = true) :
    isRealTransaction tx = false := by
  unfold isRealTransaction
  by_cases he : (trim tx.PartnerName.data).isEmpty = true
  · rw [if_pos he]
  · rw [if_neg he, if_pos hp]

lemma acceptTx_some {ds : DateAcc} {p amount : Line} {tx : Transaction}
    (h : acceptTx ds p amount = some tx) :
    ds.bd ≠ [] ∧ amount ≠ [] ∧
    isRealTransaction ⟨String.mk ds.bd, String.mk ds.vd, String.mk p, String.mk amount⟩ = true ∧
    tx.BookingDate = String.mk ds.bd ∧ tx.PartnerName = String.mk p ∧
    tx.Amount = String.mk amount ∧
    tx.ValueDate = (if ds.vd = [] then String.mk ds.bd else String.mk ds.vd) := by
  unfold acceptTx at h
  by_cases h1 : (!ds.bd.isEmpty && !amount.isEmpty) = true
  case neg => rw [if_neg h1] at h; exact absurd h (by simp)
  rw [if_pos h1] at h
  by_cases h2 : containsStr amount ",".data = true
  case neg => rw [if_neg h2] at h; exact absurd h (by simp)
  rw [if_pos h2] at h
  by_cases h3 : isRealTransaction
      ⟨String.mk ds.bd, String.mk ds.vd, String.mk p, String.mk amount⟩ = true
  case neg => rw [if_neg h3] at h; exact absurd h (by simp)
  rw [if_pos h3] at h
  simp only [Bool.and_eq_true, Bool.not_eq_true'] at h1
  have hbd : ds.bd ≠ [] := by
    intro hh
    rw [hh] at h1
    simp at h1
  have ham : amount ≠ [] := by
    intro hh
    rw [hh] at h1
    simp at h1
  have htx := (Option.some.inj h).symm
  by_cases hv : String.mk ds.vd = ""
  · rw [if_pos hv] at htx
    subst htx
    refine ⟨hbd, ham, h3, rfl, rfl, rfl, ?_⟩
    rw [if_pos (mk_eq_empty_iff.mp hv)]
  · rw [if_neg hv] at htx
    subst htx
    refine ⟨hbd, ham, h3, rfl, rfl, rfl, ?_⟩
    rw [if_neg (fun hh => hv (mk_eq_empty_iff.mpr hh))]

lemma emitAt_some_elim {lines : List Line} {i : Nat} {tx : Transaction}
    (h : emitAt lines i = some tx) :
    ∃ raw, lines[i]? = some raw ∧ fullAmountLine (trim raw) = true ∧
      acceptTx (foldDates ⟨[], []⟩ (dateWindow lines i)) (partnerPick lines i)
        (trim (dropEuro (trim raw))) = some tx := by
  unfold emitAt at h
  split at h
  on_goal 1 => exact absurd h (by simp)
  rename_i raw heq
  by_cases he : (trim raw).isEmpty = true
  · rw [if_pos he] at h
    exact absurd h (by simp)
  rw [if_neg he] at h
  by_cases hf : fullAmountLine (trim raw) = true
  · rw [if_pos hf] at h
    rw [trim_trim] at h
    exact ⟨raw, heq, hf, h⟩
  · rw [if_neg hf] at h
    exact absurd h (by simp)

lemma emitAt_none_of_not_full {lines : List Line} {i : Nat} {raw : Line}
    (hline : lines[i]? = some raw) (hf : fullAmountLine (trim raw) = false) :
    emitAt lines i = none := by
  unfold emitAt
  rw [hline]
  simp [hf]

/-! ### Balance-scan lemmas -/

lemma balanceScan_cons (l : Line) (rest : List Line) :
    balanceScan (l :: rest) =
      (match balanceAttempt
          (containsStr (trim l) esMarker1 || containsStr (trim l) esMarker2) rest with
        | some m => some ⟨String.mk (cleanBalance m)⟩
        | none =>
          match balanceAttempt
              (containsStr (trim l) enMarker1 || containsStr (trim l) enMarker2) rest with
          | some m => some ⟨String.mk (cleanBalance m)⟩
          | none => balanceScan rest) := rfl

lemma balanceScan_isSome (pre : List Line) :
    ∀ (l nl : Line) (post : List Line),
      (containsStr (trim l) esMarker1 || containsStr (trim l) esMarker2 ||
       containsStr (trim l) enMarker1 || containsStr (trim l) enMarker2) = true →
      findAllAmounts (trim nl) ≠ [] →
      (balanceScan (pre ++ l :: nl :: post)).isSome = true := by
  induction pre with
  | nil =>
    intro l nl post hm ha
    obtain ⟨m, hm'⟩ : ∃ m, (findAllAmounts (trim nl)).getLast? = some m := by
      cases hgl : (findAllAmounts (trim nl)).getLast? with
      | none => exact absurd (List.getLast?_eq_none_iff.mp hgl) ha
      | some m => exact ⟨m, rfl⟩
    rw [List.nil_append, balanceScan_cons]
    by_cases hes : (containsStr (trim l) esMarker1 || containsStr (trim l) esMarker2) = true
    · have hat : balanceAttempt
          (containsStr (trim l) esMarker1 || containsStr (trim l) esMarker2)
          (nl :: post) = some m := by
        unfold balanceAttempt
        rw [if_pos hes]
        exact hm'
      simp [hat]
    · have hen : (containsStr (trim l) enMarker1 || containsStr (trim l) enMarker2) = true := by
        simp only [Bool.or_eq_true] at hm hes ⊢
        tauto
      have hat1 : balanceAttempt
          (containsStr (trim l) esMarker1 || containsStr (trim l) esMarker2)
          (nl :: post) = none := by
        unfold balanceAttempt
        rw [if_neg hes]
      have hat2 : balanceAttempt
          (containsStr (trim l) enMarker1 || containsStr (trim l) enMarker2)
          (nl :: post) = some m := by
        unfold balanceAttempt
        rw [if_pos hen]
        exact hm'
      simp [hat1, hat2]
  | cons l0 pre ih =>
    intro l nl post hm ha
    rw [List.cons_append, balanceScan_cons]
    cases h1 : balanceAttempt
        (containsStr (trim l0) esMarker1 || containsStr (trim l0) esMarker2)
        (pre ++ l :: nl :: post) with
    | some m => simp
    | none =>
      cases h2 : balanceAttempt
          (containsStr (trim l0) enMarker1 || containsStr (trim l0) enMarker2)
          (pre ++ l :: nl :: post) with
      | some m => simp
      | none =>
        simp only []
        exact ih l nl post hm ha

/-! ### Claim theorems -/

/-- C1 (counterexample): on the input consisting exactly of the four
consecutive lines "Fecha de valor 05.10.2025", "05.10.2025",
"SUPERMARKET XYZ", "-12,34€", ParseTransactions does NOT return the single
claimed record: the counterparty line sits directly before the amount line,
which the counterparty window `[max(0,i-8), i-1)` excludes, so the partner
name stays empty and the block is rejected. -/
theorem scenarioA_counterexample :
    parseTransactionsFromText
        "Fecha de valor 05.10.2025\n05.10.2025\nSUPERMARKET XYZ\n-12,34€" ≠
      Except.ok [⟨"05.10.2025", "05.10.2025", "SUPERMARKET XYZ", "-12,34"⟩] := by
  decide

/-- C1 (amended): the four-line Scenario A input yields NO transaction
(the counterparty line, immediately preceding the amount line, is excluded
from the counterparty window); with one separating line between
"SUPERMARKET XYZ" and "-12,34€" the exact claimed record is produced. -/
theorem scenarioA_amended :
    parseTransactionsFromText
        "Fecha de valor 05.10.2025\n05.10.2025\nSUPERMARKET XYZ\n-12,34€" =
      Except.ok [] ∧
    parseTransactionsFromText
        "Fecha de valor 05.10.2025\n05.10.2025\nSUPERMARKET XYZ\n\n-12,34€" =
      Except.ok [⟨"05.10.2025", "05.10.2025", "SUPERMARKET XYZ", "-12,34"⟩] := by
  constructor
  · decide
  · decide

/-- C2 (counterexample): on "Tu nuevo saldo" followed by "Ref 12 1.234,56€",
ParseBalance does NOT return "1.234,56": the amount pattern requires exactly
two fractional digits, so "1.234,56" is split into the matches "1.23" and
"4,56€", and the last match selected is "4,56€". -/
theorem scenarioC_counterexample :
    parseBalanceFromText "Tu nuevo saldo\nRef 12 1.234,56€" ≠
      Except.ok ⟨"1.234,56"⟩ := by
  decide

/-- C2 (amended): on "Tu nuevo saldo" followed by "Ref 12 1.234,56€",
ParseBalance returns "4,56" — the matches of the amount pattern on the
following line are "1.23" and "4,56€", the LAST one is selected, and the
trailing currency symbol is stripped. -/
theorem scenarioC_amended :
    parseBalanceFromText "Tu nuevo saldo\nRef 12 1.234,56€" =
      Except.ok ⟨"4,56"⟩ ∧
    findAllAmounts "Ref 12 1.234,56€".data = ["1.23".data, "4,56€".data] := by
  constructor
  · decide
  · decide

/-- C3 (counterexample): the balance marker match is NOT case-insensitive:
"TU NUEVO SALDO" followed by an amount line makes ParseBalance fail, because
the code only substring-matches the exact spellings "Tu nuevo saldo" and
"tu nuevo saldo" (resp. "Your new balance"/"your new balance"). -/
theorem balanceMarker_case_counterexample :
    parseBalanceFromText "TU NUEVO SALDO\n12,34€" =
      Except.error balanceNotFound := by
  decide

/-- C3 (amended): for every input text in which some line contains one of the
four literal marker spellings "Tu nuevo saldo", "tu nuevo saldo",
"Your new balance", "your new balance" and the immediately following line has
an amount-pattern match, ParseBalance succeeds. -/
theorem balanceMarker_succeeds (text : String) (pre : List Line) (l nl : Line)
    (post : List Line)
    (hsplit : splitLines text.data = pre ++ l :: nl :: post)
    (hm : (containsStr (trim l) esMarker1 || containsStr (trim l) esMarker2 ||
      containsStr (trim l) enMarker1 || containsStr (trim l) enMarker2) = true)
    (ha : findAllAmounts (trim nl) ≠ []) :
    ∃ b, parseBalanceFromText text = Except.ok b := by
  have hsome := balanceScan_isSome pre l nl post (by
    simp only [Bool.or_eq_true] at hm ⊢
    tauto) ha
  rw [← hsplit] at hsome
  unfold parseBalanceFromText
  cases hb : balanceScan (splitLines text.data) with
  | none => rw [hb] at hsome; simp at hsome
  | some b => exact ⟨b, rfl⟩

/-- C3 witness: the amended theorem applied to the concrete text
"Tu nuevo saldo" + "12,34€". -/
theorem balanceMarker_succeeds_witness :
    splitLines ("Tu nuevo saldo\n12,34€" : String).data =
      [] ++ "Tu nuevo saldo".data :: "12,34€".data :: [] ∧
    (containsStr (trim "Tu nuevo saldo".data) esMarker1 ||
     containsStr (trim "Tu nuevo saldo".data) esMarker2 ||
     containsStr (trim "Tu nuevo saldo".data) enMarker1 ||
     containsStr (trim "Tu nuevo saldo".data) enMarker2) = true ∧
    findAllAmounts (trim "12,34€".data) ≠ [] ∧
    (∃ b, parseBalanceFromText "Tu nuevo saldo\n12,34€" = Except.ok b) :=
  ⟨by decide, by decide, by decide,
    balanceMarker_succeeds "Tu nuevo saldo\n12,34€" [] "Tu nuevo saldo".data
      "12,34€".data [] (by decide) (by decide) (by decide)⟩

/-- C4: a line whose trimmed content does not match the full-line pattern
`^[+-]?\d+,\d{2}\s*€?\s*$` never emits a transaction: the loop body
returns nothing at that index (and `parseTransactionsFromText` is exactly the
`filterMap` of the loop body over all indices). -/
theorem nonCandidate_line_emits_nothing (lines : List Line) (i : Nat) (raw : Line)
    (hline : lines[i]? = some raw) (hf : fullAmountLine (trim raw) = false) :
    emitAt lines i = none :=
  emitAt_none_of_not_full hline hf

/-- C4 witness: a period-decimal line "2.50", a trailing-text line
"12,34 EUR extra" and a mid-line amount "text -12,34€ here" all emit
nothing. -/
theorem nonCandidate_line_emits_nothing_witness :
    (["2.50".data, "12,34 EUR extra".data, "text -12,34€ here".data][0]? =
      some "2.50".data) ∧
    fullAmountLine (trim "2.50".data) = false ∧
    emitAt ["2.50".data, "12,34 EUR extra".data, "text -12,34€ here".data] 0 = none ∧
    fullAmountLine (trim "12,34 EUR extra".data) = false ∧
    emitAt ["2.50".data, "12,34 EUR extra".data, "text -12,34€ here".data] 1 = none ∧
    fullAmountLine (trim "text -12,34€ here".data) = false ∧
    emitAt ["2.50".data, "12,34 EUR extra".data, "text -12,34€ here".data] 2 = none :=
  ⟨by decide, by decide,
    nonCandidate_line_emits_nothing ["2.50".data, "12,34 EUR extra".data, "text -12,34€ here".data] 0 "2.50".data (by decide) (by decide),
    by decide,
    nonCandidate_line_emits_nothing ["2.50".data, "12,34 EUR extra".data, "text -12,34€ here".data] 1 "12,34 EUR extra".data (by decide) (by decide),
    by decide,
    nonCandidate_line_emits_nothing ["2.50".data, "12,34 EUR extra".data, "text -12,34€ here".data] 2 "text -12,34€ here".data (by decide) (by decide)⟩

/-- C8: ParseTransactions never fails (its only return is `ok`), on empty
input it returns the empty sequence, and ParseBalance on empty input fails
with the balance-not-found error. -/
theorem empty_input_behaviour :
    (∀ text : String, ∃ txs, parseTransactionsFromText text = Except.ok txs) ∧
    parseTransactionsFromText "" = Except.ok [] ∧
    parseBalanceFromText "" = Except.error balanceNotFound := by
  refine ⟨fun text => ⟨_, rfl⟩, by decide, by decide⟩

/-- C5: when the 10-line backward date window has no "Fecha de valor" line,
any emitted record has `ValueDate = BookingDate`; and the booking date, once
set, is never overwritten by a later line of the window. -/
theorem valueDate_defaults_to_bookingDate :
    (∀ (lines : List Line) (i : Nat) (tx : Transaction),
      (∀ l ∈ dateWindow lines i, containsStr (trim l) fechaStr = false) →
      emitAt lines i = some tx → tx.ValueDate = tx.BookingDate) ∧
    (∀ (s : DateAcc) (w : List Line), s.bd ≠ [] → (foldDates s w).bd = s.bd) := by
  constructor
  · intro lines i tx hw h
    obtain ⟨raw, hline, hf, hacc⟩ := emitAt_some_elim h
    obtain ⟨hbd, ham, hreal, hBD, hPN, hAM, hVD⟩ := acceptTx_some hacc
    have hvb : (foldDates ⟨[], []⟩ (dateWindow lines i)).vd =
        (foldDates ⟨[], []⟩ (dateWindow lines i)).bd := foldDates_vd_eq_bd hw rfl
    rw [hVD, hBD]
    by_cases hnil : (foldDates ⟨[], []⟩ (dateWindow lines i)).vd = []
    · rw [if_pos hnil]
    · rw [if_neg hnil, hvb]
  · intro s w hs
    exact foldDates_bd_of_ne hs

/-- C5 witness: a concrete block without any "Fecha de valor" line, plus a
concrete booking-date preservation instance. -/
theorem valueDate_defaults_to_bookingDate_witness :
    (∀ l ∈ dateWindow (splitLines ("05.10.2025\nSHOP NAME HERE\n\n-12,34€" : String).data) 3,
      containsStr (trim l) fechaStr = false) ∧
    emitAt (splitLines ("05.10.2025\nSHOP NAME HERE\n\n-12,34€" : String).data) 3 =
      some ⟨"05.10.2025", "05.10.2025", "SHOP NAME HERE", "-12,34"⟩ ∧
    (⟨"05.10.2025", "05.10.2025", "SHOP NAME HERE", "-12,34"⟩ : Transaction).ValueDate =
      (⟨"05.10.2025", "05.10.2025", "SHOP NAME HERE", "-12,34"⟩ : Transaction).BookingDate ∧
    (⟨[], "05.10.2025".data⟩ : DateAcc).bd ≠ [] ∧
    (foldDates ⟨[], "05.10.2025".data⟩ ["06.10.2025".data]).bd = "05.10.2025".data :=
  ⟨by decide, by decide,
    valueDate_defaults_to_bookingDate.1
      (splitLines ("05.10.2025\nSHOP NAME HERE\n\n-12,34€" : String).data) 3
      ⟨"05.10.2025", "05.10.2025", "SHOP NAME HERE", "-12,34"⟩ (by decide) (by decide),
    by decide,
    valueDate_defaults_to_bookingDate.2 ⟨[], "05.10.2025".data⟩
      ["06.10.2025".data] (by decide)⟩

/-- C6: counterparty selection is deterministic: among the non-skipped
(trimmed) lines of the window `[max(0,i-8), i-1)`, the resolved partner name
is the first-encountered line of maximal byte length (everything before it in
the candidate list is strictly shorter, everything after it no longer), and
it is the string stored in any record emitted at index `i`. -/
theorem counterparty_longest_first (lines : List Line) (i : Nat)
    (h : partnerCands lines i ≠ []) :
    (∃ pre post, partnerCands lines i = pre ++ partnerPick lines i :: post ∧
      (∀ c ∈ pre, golen c < golen (partnerPick lines i)) ∧
      (∀ c ∈ post, golen c ≤ golen (partnerPick lines i))) ∧
    ∀ tx, emitAt lines i = some tx → tx.PartnerName = String.mk (partnerPick lines i) := by
  constructor
  · exact partnerPick_firstMax h
  · intro tx he
    obtain ⟨raw, hline, hf, hacc⟩ := emitAt_some_elim he
    exact (acceptTx_some hacc).2.2.2.2.1

/-- C6 witness: a window offering "AAAA" and the longer "BBBBB". -/
theorem counterparty_longest_first_witness :
    partnerCands (splitLines ("AAAA\nBBBBB\n\n-1,23€" : String).data) 3 ≠ [] ∧
    partnerPick (splitLines ("AAAA\nBBBBB\n\n-1,23€" : String).data) 3 = "BBBBB".data ∧
    ((∃ pre post,
        partnerCands (splitLines ("AAAA\nBBBBB\n\n-1,23€" : String).data) 3 =
          pre ++ partnerPick (splitLines ("AAAA\nBBBBB\n\n-1,23€" : String).data) 3 :: post ∧
        (∀ c ∈ pre, golen c <
          golen (partnerPick (splitLines ("AAAA\nBBBBB\n\n-1,23€" : String).data) 3)) ∧
        (∀ c ∈ post, golen c ≤
          golen (partnerPick (splitLines ("AAAA\nBBBBB\n\n-1,23€" : String).data) 3))) ∧
      ∀ tx, emitAt (splitLines ("AAAA\nBBBBB\n\n-1,23€" : String).data) 3 = some tx →
        tx.PartnerName =
          String.mk (partnerPick (splitLines ("AAAA\nBBBBB\n\n-1,23€" : String).data) 3)) :=
  ⟨by decide, by decide,
    counterparty_longest_first (splitLines ("AAAA\nBBBBB\n\n-1,23€" : String).data) 3
      (by decide)⟩

/-- C7: a resolved counterparty matching the bare page-number pattern
`^\d+\s*/\s*\d+$` fails `isRealTransaction`, and the block emits no
record even when a valid booking date and amount are present. -/
theorem pageNumber_partner_rejected :
    (∀ tx : Transaction, pageNumberMatch (trim tx.PartnerName.data) = true →
      isRealTransaction tx = false) ∧
    (∀ (lines : List Line) (i : Nat),
      pageNumberMatch (trim (partnerPick lines i)) = true → emitAt lines i = none) := by
  constructor
  · exact fun tx hp => isRealTransaction_page hp
  · intro lines i hp
    cases he : emitAt lines i with
    | none => rfl
    | some tx =>
      exfalso
      obtain ⟨raw, hline, hf, hacc⟩ := emitAt_some_elim he
      obtain ⟨hbd, ham, hreal, hrest⟩ := acceptTx_some hacc
      have hp' : pageNumberMatch
          (trim (String.mk (partnerPick lines i)).data) = true := by
        rw [mk_data]
        exact hp
      have hfalse := @isRealTransaction_page
        ⟨String.mk (foldDates ⟨[], []⟩ (dateWindow lines i)).bd,
          String.mk (foldDates ⟨[], []⟩ (dateWindow lines i)).vd,
          String.mk (partnerPick lines i),
          String.mk (trim (dropEuro (trim raw)))⟩ hp'
      rw [hreal] at hfalse
      exact Bool.noConfusion hfalse

/-- C7 witness: Scenario B — the sole candidate "1 / 3" is rejected and no
transaction is emitted despite a valid date and amount. -/
theorem pageNumber_partner_rejected_witness :
    isRealTransaction ⟨"01.01.2025", "01.01.2025", "1 / 3", "-1,00"⟩ = false ∧
    pageNumberMatch
      (trim (partnerPick (splitLines ("05.10.2025\n1 / 3\n\n-12,34€" : String).data) 3)) =
      true ∧
    emitAt (splitLines ("05.10.2025\n1 / 3\n\n-12,34€" : String).data) 3 = none ∧
    parseTransactionsFromText "05.10.2025\n1 / 3\n\n-12,34€" = Except.ok [] :=
  ⟨pageNumber_partner_rejected.1 ⟨"01.01.2025", "01.01.2025", "1 / 3", "-1,00"⟩ (by decide),
    by decide,
    pageNumber_partner_rejected.2
      (splitLines ("05.10.2025\n1 / 3\n\n-12,34€" : String).data) 3 (by decide),
    by decide⟩

/-- C9: every emitted record satisfies the data-model invariant: the amount
matches `^[+-]?\d+,\d{2}$` (comma decimal, no currency symbol, no
surrounding white space), the booking date matches `\d{2}\.\d{2}\.\d{4}`,
the counterparty name is trimmed, non-empty and at least 3 bytes long, and
the value date is non-empty. -/
theorem emitted_record_invariants (text : String) (txs : List Transaction)
    (tx : Transaction) (hok : parseTransactionsFromText text = Except.ok txs)
    (hmem : tx ∈ txs) :
    amountShape tx.Amount.data = true ∧
    dateShape tx.BookingDate.data = true ∧
    trim tx.PartnerName.data = tx.PartnerName.data ∧
    tx.PartnerName ≠ "" ∧
    3 ≤ golen tx.PartnerName.data ∧
    tx.ValueDate ≠ "" := by
  have htxs : txs = transactionsFromLines (splitLines text.data) :=
    (Except.ok.inj hok).symm
  subst htxs
  obtain ⟨i, hi, hemit⟩ := List.mem_filterMap.mp hmem
  obtain ⟨raw, hline, hf, hacc⟩ := emitAt_some_elim hemit
  obtain ⟨hbd, ham, hreal, hBD, hPN, hAM, hVD⟩ := acceptTx_some hacc
  obtain ⟨core, hcore⟩ : ∃ core, parseFullAmount (trim raw) = some core := by
    unfold fullAmountLine at hf
    exact Option.isSome_iff_exists.mp hf
  obtain ⟨hceq, hshape⟩ := fullAmount_core hcore (trim_trim raw)
  have hspec := isRealTransaction_spec hreal
  simp only [mk_data] at hspec
  rw [partnerPick_trimmed] at hspec
  refine ⟨?_, ?_, ?_, ?_, ?_, ?_⟩
  · rw [hAM, mk_data, hceq]
    exact hshape
  · rw [hBD, mk_data]
    rcases foldDates_bd_shape (w := dateWindow (splitLines text.data) i)
        (s := ⟨[], []⟩) (Or.inl rfl) with hnil | hsh
    · exact absurd hnil hbd
    · exact hsh
  · rw [hPN, mk_data]
    exact partnerPick_trimmed _ _
  · intro hh
    rw [hPN] at hh
    exact hspec.1 (mk_eq_empty_iff.mp hh)
  · rw [hPN, mk_data]
    exact hspec.2.2
  · intro hh
    rw [hVD] at hh
    by_cases hnil : (foldDates ⟨[], []⟩ (dateWindow (splitLines text.data) i)).vd = []
    · rw [if_pos hnil] at hh
      exact hbd (mk_eq_empty_iff.mp hh)
    · rw [if_neg hnil] at hh
      exact hnil (mk_eq_empty_iff.mp hh)

/-- C9 witness: the invariants at a concretely emitted record. -/
theorem emitted_record_invariants_witness :
    parseTransactionsFromText "05.10.2025\nSHOP NAME HERE\n\n-12,34€" =
      Except.ok [⟨"05.10.2025", "05.10.2025", "SHOP NAME HERE", "-12,34"⟩] ∧
    (⟨"05.10.2025", "05.10.2025", "SHOP NAME HERE", "-12,34"⟩ : Transaction) ∈
      [(⟨"05.10.2025", "05.10.2025", "SHOP NAME HERE", "-12,34"⟩ : Transaction)] ∧
    (amountShape (Transaction.Amount ⟨"05.10.2025", "05.10.2025", "SHOP NAME HERE", "-12,34"⟩).data = true ∧
     dateShape (Transaction.BookingDate ⟨"05.10.2025", "05.10.2025", "SHOP NAME HERE", "-12,34"⟩).data = true ∧
     trim (Transaction.PartnerName ⟨"05.10.2025", "05.10.2025", "SHOP NAME HERE", "-12,34"⟩).data =
       (Transaction.PartnerName ⟨"05.10.2025", "05.10.2025", "SHOP NAME HERE", "-12,34"⟩).data ∧
     Transaction.PartnerName ⟨"05.10.2025", "05.10.2025", "SHOP NAME HERE", "-12,34"⟩ ≠ "" ∧
     3 ≤ golen (Transaction.PartnerName ⟨"05.10.2025", "05.10.2025", "SHOP NAME HERE", "-12,34"⟩).data ∧
     Transaction.ValueDate ⟨"05.10.2025", "05.10.2025", "SHOP NAME HERE", "-12,34"⟩ ≠ "") :=
  ⟨by decide, by decide,
    emitted_record_invariants "05.10.2025\nSHOP NAME HERE\n\n-12,34€"
      [⟨"05.10.2025", "05.10.2025", "SHOP NAME HERE", "-12,34"⟩]
      ⟨"05.10.2025", "05.10.2025", "SHOP NAME HERE", "-12,34"⟩
      (by decide) (by decide)⟩

/-- C10: when the date window contains "Fecha de valor" lines carrying date
matches, the emitted record's value date is the one of the LAST such line
(later occurrences overwrite earlier ones) — unlike the booking date, which,
once set, is preserved. -/
theorem valueDate_last_fecha_wins :
    (∀ (lines : List Line) (i : Nat) (tx : Transaction) (d : Line),
      emitAt lines i = some tx →
      (fechaDates (dateWindow lines i)).getLast? = some d →
      tx.ValueDate = String.mk d) ∧
    (∀ (s : DateAcc) (w : List Line), s.bd ≠ [] → (foldDates s w).bd = s.bd) := by
  constructor
  · intro lines i tx d he hd
    obtain ⟨raw, hline, hf, hacc⟩ := emitAt_some_elim he
    obtain ⟨hbd, ham, hreal, hBD, hPN, hAM, hVD⟩ := acceptTx_some hacc
    have hvd := foldDates_vd_last_fecha (s := (⟨[], []⟩ : DateAcc)) hd
    have hne : fechaDates (dateWindow lines i) ≠ [] := by
      intro hh
      rw [hh] at hd
      simp at hd
    have hdne : d ≠ [] := by
      have hgl := List.getLast?_eq_getLast (fechaDates (dateWindow lines i)) hne
      rw [hd] at hgl
      have hdm : d ∈ fechaDates (dateWindow lines i) := by
        rw [Option.some.inj hgl]
        exact List.getLast_mem hne
      unfold fechaDates at hdm
      obtain ⟨l, hl, hsome⟩ := List.mem_filterMap.mp hdm
      by_cases hc : containsStr (trim l) fechaStr = true
      · rw [if_pos hc] at hsome
        exact findFirstDate_ne_nil hsome
      · rw [if_neg hc] at hsome
        exact absurd hsome (by simp)
    rw [hVD, if_neg (by rw [hvd]; exact hdne), hvd]
  · intro s w hs
    exact foldDates_bd_of_ne hs

/-- C10 witness: two "Fecha de valor" lines; the later one supplies the value
date. -/
theorem valueDate_last_fecha_wins_witness :
    emitAt (splitLines
      ("Fecha de valor 01.01.2025\nFecha de valor 02.01.2025\n03.01.2025\nSHOP NAME HERE\n\n-1,23€" : String).data) 5 =
      some ⟨"03.01.2025", "02.01.2025", "SHOP NAME HERE", "-1,23"⟩ ∧
    (fechaDates (dateWindow (splitLines
      ("Fecha de valor 01.01.2025\nFecha de valor 02.01.2025\n03.01.2025\nSHOP NAME HERE\n\n-1,23€" : String).data) 5)).getLast? =
      some "02.01.2025".data ∧
    (⟨"03.01.2025", "02.01.2025", "SHOP NAME HERE", "-1,23"⟩ : Transaction).ValueDate =
      String.mk "02.01.2025".data ∧
    (foldDates ⟨"01.01.2025".data, "03.01.2025".data⟩ ["04.01.2025".data]).bd =
      "03.01.2025".data :=
  ⟨by decide, by decide,
    valueDate_last_fecha_wins.1
      (splitLines
        ("Fecha de valor 01.01.2025\nFecha de valor 02.01.2025\n03.01.2025\nSHOP NAME HERE\n\n-1,23€" : String).data) 5
      ⟨"03.01.2025", "02.01.2025", "SHOP NAME HERE", "-1,23"⟩ "02.01.2025".data
      (by decide) (by decide),
    valueDate_last_fecha_wins.2 ⟨"01.01.2025".data, "03.01.2025".data⟩
      ["04.01.2025".data] (by decide)⟩

end N26
